import Mathlib

/-!
Verification of the document indexing, relevance-ranking and reconciliation
subsystem of the `file-upload-es` repository, against its specification.

The definitions below are shallow embeddings of the JavaScript/TypeScript
source:
* `src/backend/elasticsearch.js` — index schema (`initElasticsearch`),
  query construction (`searchDocuments`, `getAllDocuments`), document CRUD
  (`indexDocument`, `deleteDocument`) and filesystem/index reconciliation
  (`syncFilesWithElasticsearch`);
* `src/frontend/src/app/components/file-upload/file-upload.component.ts` —
  the highlight classifier (`processHighlights`).

Elasticsearch itself is external: requests sent to it are modelled as data
(abstract syntax of the query bodies the code builds), and the index is
modelled as a list of documents keyed by filename.
-/

namespace FileUploadES

/-! ### JavaScript string primitives used by the code -/

/-- The whitespace class of JavaScript's `String.prototype.trim` and of the
regular-expression class `\s` (the characters relevant to this system). -/
def isJsSpace (c : Char) : Bool :=
  c == ' ' || c == '\t' || c == '\n' || c == '\r' ||
  c == '\x0b' || c == '\x0c' || c == '\u00A0' ||
  c == '\u2028' || c == '\u2029' || c == '\uFEFF'

/-- Characters that JavaScript's regular-expression `.` does not match. -/
def dotExcluded (c : Char) : Bool :=
  c == '\n' || c == '\r' || c == '\u2028' || c == '\u2029'

/-- `String.prototype.trim` on a character list. -/
def jsTrimChars (l : List Char) : List Char :=
  ((l.dropWhile isJsSpace).reverse.dropWhile isJsSpace).reverse

/-- JavaScript `query.trim()`. -/
def jsTrim (s : String) : String :=
  String.mk (jsTrimChars s.data)

/-- JavaScript `c.toLowerCase()` on a single character (ASCII case mapping). -/
def lowerChar (c : Char) : Char := c.toLower

/-- JavaScript `s.toLowerCase()` (ASCII case mapping). -/
def jsToLower (s : String) : String := String.mk (s.data.map lowerChar)

/-! ### Search request bodies (`searchDocuments`, `getAllDocuments`)

The code builds Elasticsearch request bodies as JSON; we embed the bodies it
can build as an abstract syntax. -/

/-- The `operator` option of a `multi_match` clause. -/
inductive MatchOp
  | and
  | or
deriving DecidableEq, Repr

/-- A `multi_match` clause as built by `searchDocuments`. -/
structure MultiMatch where
  fields : List String
  query : String
  op : Option MatchOp
  fuzziness : Option String
  prefixLength : Option Nat
  boost : Nat
deriving DecidableEq, Repr

/-- A leaf clause of a `bool`/`should` query. -/
inductive Clause
  /-- `match_phrase` on one field, with `boost` and `slop`. -/
  | matchPhrase (field : String) (query : String) (boost : Nat) (slop : Nat)
  /-- `multi_match` over several fields. -/
  | multiMatch (m : MultiMatch)
  /-- plain `match` on one field (used in the highlight query). -/
  | matchOne (field : String) (query : String) (fuzziness : Option String)
deriving DecidableEq, Repr

/-- A `bool` query with a `should` list. -/
structure BoolQuery where
  should : List Clause
  minimumShouldMatch : Option Nat
deriving DecidableEq, Repr

/-- The top-level `query` of a search body built by the code. -/
inductive TopQuery
  | matchAll
  | boolQ (b : BoolQuery)
deriving DecidableEq, Repr

/-- Per-field highlight options. -/
structure HighlightField where
  fragmentSize : Option Nat
  numberOfFragments : Option Nat
  hlType : Option String
deriving DecidableEq, Repr

/-- The `highlight` section of the search body. -/
structure HighlightSpec where
  preTags : List String
  postTags : List String
  hlOrder : Option String
  highlightQuery : BoolQuery
  hlFields : List (String × HighlightField)
deriving DecidableEq, Repr

/-- A whole search request body: `query`, optional `highlight`, `size`. -/
structure SearchRequest where
  query : TopQuery
  highlight : Option HighlightSpec
  size : Nat
deriving DecidableEq, Repr

/-- The request body built by `searchDocuments` (elasticsearch.js lines
95–174): an unranked `match_all` of size 100 for empty/whitespace queries,
otherwise the four-tier boosted `bool` query with its highlight section. -/
def searchDocumentsRequest (query : String) : SearchRequest :=
  if jsTrim query = "" then
    { query := TopQuery.matchAll, highlight := none, size := 100 }
  else
    let q := jsTrim query
    { query := TopQuery.boolQ
        { should := [
            Clause.matchPhrase "content.exact" q 100 0,
            Clause.matchPhrase "filename" q 100 0,
            Clause.multiMatch
              { fields := ["filename^2", "content"], query := q,
                op := some MatchOp.and, fuzziness := none,
                prefixLength := none, boost := 50 },
            Clause.multiMatch
              { fields := ["filename", "content"], query := q,
                op := none, fuzziness := some "AUTO",
                prefixLength := some 1, boost := 10 },
            Clause.multiMatch
              { fields := ["filename", "content"], query := q,
                op := some MatchOp.or, fuzziness := none,
                prefixLength := none, boost := 1 }],
          minimumShouldMatch := some 1 },
      highlight := some
        { preTags := ["<span class=\"highlight\">"],
          postTags := ["</span>"],
          hlOrder := some "score",
          highlightQuery :=
            { should := [
                Clause.matchOne "content.exact" q none,
                Clause.matchOne "content" q (some "AUTO"),
                Clause.matchOne "filename" q (some "AUTO")],
              minimumShouldMatch := none },
          hlFields := [
            ("content", { fragmentSize := some 150, numberOfFragments := some 5, hlType := some "plain" }),
            ("content.exact", { fragmentSize := some 150, numberOfFragments := some 5, hlType := none }),
            ("filename", { fragmentSize := none, numberOfFragments := none, hlType := none }),
            ("originalname", { fragmentSize := none, numberOfFragments := none, hlType := none })] },
      size := 100 }

/-- The request body issued by `getAllDocuments` (elasticsearch.js lines
215–232): `match_all`, size 10000. -/
def getAllDocumentsRequest : SearchRequest :=
  { query := TopQuery.matchAll, highlight := none, size := 10000 }

/-! ### The specification's reading of the four tiers

These predicates restate, in the spec's vocabulary, what each tier of the
"disjunctive four-tier boosted query" must look like; they are defined from
the spec's words and compared against the request the code builds. -/

/-- A field name with an optional `^boost` suffix stripped
(`"filename^2"` targets the field `"filename"`). -/
def fieldBase (f : String) : String :=
  String.mk (f.data.takeWhile (fun c => !(c == '^')))

/-- A field list mentions a field, up to `^boost` suffixes. -/
def mentionsField (fields : List String) (name : String) : Bool :=
  fields.any (fun f => fieldBase f == name)

/-- A field list covers both the filename field and the content field. -/
def coversFilenameContent (fields : List String) : Bool :=
  mentionsField fields "filename" && mentionsField fields "content"

/-- Tier 1 of the spec: an exact phrase match (slop 0) on the filename field
or the unanalyzed exact-content field, boost 100, for the trimmed query. -/
def isTier1Clause (q : String) (c : Clause) : Bool :=
  match c with
  | Clause.matchPhrase f p b s =>
      (f == "filename" || f == "content.exact") && p == q && b == 100 && s == 0
  | _ => false

/-- Tier 2 of the spec: all query terms required (operator AND) over
filename/content, boost 50, no fuzziness. -/
def isTier2Clause (q : String) (c : Clause) : Bool :=
  match c with
  | Clause.multiMatch m =>
      coversFilenameContent m.fields && m.query == q &&
      m.op == some MatchOp.and && m.fuzziness == none && m.boost == 50
  | _ => false

/-- Tier 3 of the spec: a fuzzy, edit-distance-tolerant match with a bounded
(positive) prefix length over filename/content, boost 10. -/
def isTier3Clause (q : String) (c : Clause) : Bool :=
  match c with
  | Clause.multiMatch m =>
      coversFilenameContent m.fields && m.query == q &&
      m.fuzziness == some "AUTO" && m.prefixLength.isSome && m.boost == 10
  | _ => false

/-- Tier 4 of the spec: any query term sufficient (operator OR) over
filename/content, boost 1, no fuzziness. -/
def isTier4Clause (q : String) (c : Clause) : Bool :=
  match c with
  | Clause.multiMatch m =>
      coversFilenameContent m.fields && m.query == q &&
      m.op == some MatchOp.or && m.fuzziness == none && m.boost == 1
  | _ => false

/-- The field a `match_phrase` clause targets. -/
def phraseField (c : Clause) : Option String :=
  match c with
  | Clause.matchPhrase f _ _ _ => some f
  | _ => none

/-- The boost carried by a clause (plain `match` clauses carry none). -/
def clauseBoost (c : Clause) : Nat :=
  match c with
  | Clause.matchPhrase _ _ b _ => b
  | Clause.multiMatch m => m.boost
  | Clause.matchOne _ _ _ => 0

/-- The boosts of the `should` clauses of the request a query produces. -/
def shouldBoosts (query : String) : List Nat :=
  match (searchDocumentsRequest query).query with
  | TopQuery.boolQ b => b.should.map clauseBoost
  | TopQuery.matchAll => []

/-- Which of the four tiers a document matches, in the additive scoring
model of the spec (scores add across tiers for the same document). -/
structure TierMatches where
  t1 : Bool
  t2 : Bool
  t3 : Bool
  t4 : Bool
deriving DecidableEq, Repr

/-- Additive per-tier score: the sum of the boosts of the matched tiers. -/
def additiveTierScore (b1 b2 b3 b4 : Nat) (m : TierMatches) : Nat :=
  (if m.t1 then b1 else 0) + (if m.t2 then b2 else 0) +
  (if m.t3 then b3 else 0) + (if m.t4 then b4 else 0)

/-! ### Index schema (`initElasticsearch`) -/

/-- The `word_delimiter` filter options of `filename_word_delimiter`
(elasticsearch.js lines 31–41). -/
structure WordDelimiterFilter where
  generateWordParts : Bool
  generateNumberParts : Bool
  catenateWords : Bool
  catenateNumbers : Bool
  catenateAll : Bool
  splitOnCaseChange : Bool
  preserveOriginal : Bool
  splitOnNumerics : Bool
deriving DecidableEq, Repr

/-- The `filename_word_delimiter` filter as configured by the code. -/
def filenameWordDelimiter : WordDelimiterFilter :=
  { generateWordParts := true, generateNumberParts := true,
    catenateWords := true, catenateNumbers := true, catenateAll := true,
    splitOnCaseChange := true, preserveOriginal := true,
    splitOnNumerics := false }

/-- A custom analyzer: a tokenizer plus a filter chain. -/
structure AnalyzerSpec where
  tokenizer : String
  filters : List String
deriving DecidableEq, Repr

/-- The `filename_analyzer` as configured by the code
(elasticsearch.js lines 24–28). -/
def filenameAnalyzer : AnalyzerSpec :=
  { tokenizer := "standard", filters := ["lowercase", "filename_word_delimiter"] }

/-- Field datatypes used in the mapping. -/
inductive FieldType
  | text
  | long
  | date
deriving DecidableEq, Repr

/-- A sub-field of a mapped field (the `fields` section of a property). -/
structure SubField where
  sname : String
  stype : FieldType
  sanalyzer : Option String
deriving DecidableEq, Repr

/-- One mapped property: datatype, optional analyzer, sub-fields. -/
structure FieldMapping where
  ftype : FieldType
  analyzer : Option String
  subs : List SubField
deriving DecidableEq, Repr

/-- The explicit `mappings.properties` created by `initElasticsearch`
(elasticsearch.js lines 45–58): only `originalname`, `content` (with its
`exact` sub-field), `size` and `uploadDate` are mapped. -/
def documentsMappings : List (String × FieldMapping) :=
  [("originalname", { ftype := FieldType.text, analyzer := some "filename_analyzer", subs := [] }),
   ("content", { ftype := FieldType.text, analyzer := some "standard",
                 subs := [{ sname := "exact", stype := FieldType.text, sanalyzer := some "whitespace" }] }),
   ("size", { ftype := FieldType.long, analyzer := none, subs := [] }),
   ("uploadDate", { ftype := FieldType.date, analyzer := none, subs := [] })]

/-- Look a property up in the explicit mapping. -/
def mappingFor (field : String) : Option FieldMapping :=
  (documentsMappings.find? (fun p => p.fst == field)).map Prod.snd

/-- The spec's requirement on a filename-like field: it is explicitly mapped
with the delimiter-splitting, case-change-splitting, original-preserving
analyzer (`filename_analyzer`, whose chain contains
`filename_word_delimiter`). -/
def hasSplittingAnalyzer (field : String) : Bool :=
  match mappingFor field with
  | some m =>
      m.analyzer == some "filename_analyzer" &&
      filenameAnalyzer.filters.contains "filename_word_delimiter" &&
      filenameWordDelimiter.splitOnCaseChange &&
      filenameWordDelimiter.preserveOriginal &&
      filenameWordDelimiter.generateWordParts &&
      filenameWordDelimiter.catenateAll
  | none => false

/-- The fields a clause targets (with `^boost` suffixes stripped). -/
def clauseFields (c : Clause) : List String :=
  match c with
  | Clause.matchPhrase f _ _ _ => [f]
  | Clause.multiMatch m => m.fields.map fieldBase
  | Clause.matchOne f _ _ => [f]

/-- All fields targeted by the ranked multi-tier query a search builds
(empty for the `match_all` path). -/
def rankedQueryFields (query : String) : List String :=
  match (searchDocumentsRequest query).query with
  | TopQuery.boolQ b => (b.should.map clauseFields).flatten
  | TopQuery.matchAll => []

/-- The content field carries an `exact` sub-field (for exact/phrase
queries). -/
def contentHasExactSub : Bool :=
  match mappingFor "content" with
  | some m => m.subs.any (fun s => s.sname == "exact")
  | none => false

/-! ### The document index and its CRUD operations

The external index is modelled as a list of documents; the document key
(`_id`) is the `filename` field, exactly as `indexDocument` stores it. -/

/-- An indexed document, as stored by `indexDocument`
(elasticsearch.js lines 72–92). -/
structure ESDoc where
  filename : String
  originalname : String
  content : String
  size : Nat
  uploadDate : Nat
deriving DecidableEq, Repr

/-- The keys (`_id` values) present in an index state. -/
def esIds (idx : List ESDoc) : List String :=
  idx.map (fun d => d.filename)

/-- `indexDocument`: insert or fully replace, keyed by `doc.filename`. -/
def indexUpsert (idx : List ESDoc) (d : ESDoc) : List ESDoc :=
  if idx.any (fun e => e.filename == d.filename) then
    idx.map (fun e => if e.filename == d.filename then d else e)
  else
    idx ++ [d]

/-- An error response from the index service. -/
structure ESError where
  statusCode : Nat
deriving DecidableEq, Repr

/-- The raw `client.delete` primitive: removes the document with the given
key, or fails with status 404 when no such document exists. -/
def esDelete (idx : List ESDoc) (id : String) : Except ESError (List ESDoc) :=
  if idx.any (fun e => e.filename == id) then
    Except.ok (idx.filter (fun e => !(e.filename == id)))
  else
    Except.error { statusCode := 404 }

/-- `deleteDocument` (elasticsearch.js lines 185–197): runs the raw delete
and catches every error (logging non-404 ones), so it always completes
normally and never raises to its caller; its result is the index state
after the call. -/
def deleteDocument (idx : List ESDoc) (id : String) : List ESDoc :=
  match esDelete idx id with
  | Except.ok idxAfter => idxAfter
  | Except.error _ => idx

/-! ### Filesystem model and MIME detection -/

/-- A directory entry of the storage root, with the `fs.statSync` metadata
the code reads. -/
structure DirEntry where
  name : String
  isFile : Bool
  size : Nat
  mtime : Nat
deriving DecidableEq, Repr

/-- Node's `path.extname` for a bare filename: the suffix from the last
dot, empty when there is no dot or the only dot starts the name. -/
def extname (s : String) : String :=
  match (s.data.reverse.findIdx? (fun c => c == '.')) with
  | some i =>
      let pos := s.data.length - 1 - i
      if pos = 0 then "" else String.mk (s.data.drop pos)
  | none => ""

/-- `getMimeType` (elasticsearch.js lines 247–257): extension-derived MIME
type, `none` for unsupported types. -/
def getMimeType (filename : String) : Option String :=
  match jsToLower (extname filename) with
  | ".pdf" => some "application/pdf"
  | ".doc" => some "application/msword"
  | ".docx" => some "application/vnd.openxmlformats-officedocument.wordprocessingml.document"
  | ".xls" => some "application/vnd.ms-excel"
  | ".xlsx" => some "application/vnd.openxmlformats-officedocument.spreadsheetml.sheet"
  | _ => none

/-- `isSupportedFileType` (elasticsearch.js lines 260–262). -/
def isSupportedFileType (filename : String) : Bool :=
  (getMimeType filename).isSome

/-! ### Reconciliation (`syncFilesWithElasticsearch`) -/

/-- JavaScript `filename.startsWith('.')`. -/
def startsWithDot (s : String) : Bool :=
  match s.data with
  | c :: _ => c == '.'
  | [] => false

/-- The storage entries reconciliation looks at: regular files whose name
does not start with a dot (elasticsearch.js lines 279–284). -/
def visibleFiles (entries : List DirEntry) : List String :=
  (entries.filter (fun e => e.isFile && !(startsWithDot e.name))).map
    (fun e => e.name)

/-- The orphaned records: indexed documents with no matching storage entry
(elasticsearch.js lines 295–297). -/
def orphanedRecords (idx : List ESDoc) (files : List String) : List ESDoc :=
  idx.filter (fun d => !(files.contains d.filename))

/-- The orphan-deletion loop (elasticsearch.js lines 300–303). -/
def deleteOrphans (idx : List ESDoc) (orphans : List ESDoc) : List ESDoc :=
  orphans.foldl (fun acc d => deleteDocument acc d.filename) idx

/-- The new files to index: storage entries absent from the index snapshot
and of a supported type (elasticsearch.js lines 310–312). -/
def newFilesOf (files : List String) (idsInES : List String) : List String :=
  files.filter (fun n => !(idsInES.contains n) && isSupportedFileType n)

/-- The mutable state of the indexing loop: current index, documents
upserted so far, indexed and skipped counters. -/
structure LoopState where
  cur : List ESDoc
  upserted : List ESDoc
  indexedCount : Nat
  skippedCount : Nat
deriving Repr

/-- One iteration of the indexing loop (elasticsearch.js lines 318–350):
recheck the MIME type (counting a skip when it is missing), stat the file,
extract its text and upsert; a per-file failure is caught and the loop
moves on. -/
def syncStep (entries : List DirEntry)
    (extract : String → String → Except Unit String)
    (st : LoopState) (filename : String) : LoopState :=
  match getMimeType filename with
  | none =>
      { st with skippedCount := st.skippedCount + 1 }
  | some mimetype =>
      match entries.find? (fun e => e.name == filename) with
      | none => st
      | some e =>
          match extract filename mimetype with
          | Except.error _ => st
          | Except.ok content =>
              let d : ESDoc :=
                { filename := filename, originalname := filename,
                  content := content, size := e.size, uploadDate := e.mtime }
              { cur := indexUpsert st.cur d,
                upserted := st.upserted ++ [d],
                indexedCount := st.indexedCount + 1,
                skippedCount := st.skippedCount }

/-- The indexing loop over the new files. -/
def indexLoop (entries : List DirEntry)
    (extract : String → String → Except Unit String)
    (st : LoopState) (names : List String) : LoopState :=
  names.foldl (syncStep entries extract) st

/-- What one reconciliation run did: the storage root afterwards, the index
afterwards, the ids deleted, the documents upserted, and the summary
counters it reports. -/
structure SyncResult where
  finalStorage : Option (List DirEntry)
  finalIndex : List ESDoc
  deletedIds : List String
  upserted : List ESDoc
  indexedCount : Nat
  skippedCount : Nat
  createdDir : Bool
deriving Repr

/-- `syncFilesWithElasticsearch` (elasticsearch.js lines 265–364).
`storage` is the storage root: `none` when the uploads directory does not
exist, otherwise its entries. `extract` is the text extractor
(`extractText`); an `error` result models a thrown per-file failure. -/
def syncFilesWithElasticsearch (storage : Option (List DirEntry))
    (idx : List ESDoc)
    (extract : String → String → Except Unit String) : SyncResult :=
  match storage with
  | none =>
      { finalStorage := some [], finalIndex := idx, deletedIds := [],
        upserted := [], indexedCount := 0, skippedCount := 0,
        createdDir := true }
  | some entries =>
      let filesInDirectory := visibleFiles entries
      let idsInES := esIds idx
      let orphans := orphanedRecords idx filesInDirectory
      let idxAfterDeletes := deleteOrphans idx orphans
      let newFiles := newFilesOf filesInDirectory idsInES
      let finalSt := indexLoop entries extract
        { cur := idxAfterDeletes, upserted := [], indexedCount := 0,
          skippedCount := 0 } newFiles
      { finalStorage := some entries, finalIndex := finalSt.cur,
        deletedIds := orphans.map (fun d => d.filename),
        upserted := finalSt.upserted,
        indexedCount := finalSt.indexedCount,
        skippedCount := finalSt.skippedCount,
        createdDir := false }

/-- The spec's count for claim C8: unsupported-type file entries present in
the storage root and absent from the index. -/
def unsupportedAbsentCount (entries : List DirEntry) (idx : List ESDoc) : Nat :=
  ((visibleFiles entries).filter
    (fun n => !(isSupportedFileType n) && !((esIds idx).contains n))).length

/-! ### Highlight classification (`processHighlights`, first variant of
`file-upload.component.ts`, lines 121–141)

The component rewrites every `<span class="highlight">…</span>` produced by
the engine, relabelling it exact (kept as `highlight`) or fuzzy
(`highlight-fuzzy`).  The regular-expression replace
`/<span class="highlight">(.*?)<\/span>/gi` is embedded as a left-to-right
scanner: at each position it tries to match the opening tag
case-insensitively, then captures lazily up to the first closing tag
(`.` cannot cross line terminators); on failure it moves one character
forward. -/

/-- The engine's highlight wrapper, as matched by the regex. -/
def openTagChars : List Char := "<span class=\"highlight\">".data

/-- The closing tag of the wrapper. -/
def closeTagChars : List Char := "</span>".data

/-- The replacement wrapper for fuzzy spans. -/
def fuzzyOpenChars : List Char := "<span class=\"highlight-fuzzy\">".data

/-- Case-insensitive prefix test (the regex has the `i` flag). -/
def isPrefixCI : List Char → List Char → Bool
  | [], _ => true
  | _ :: _, [] => false
  | p :: ps, s :: ss => (lowerChar p == lowerChar s) && isPrefixCI ps ss

/-- Lazy capture of `(.*?)` up to the first case-insensitive `</span>`:
returns the captured content and the remainder after the close tag, or
`none` when no close tag is reachable (the dot cannot cross line
terminators). -/
def findClose : List Char → Option (List Char × List Char)
  | [] => none
  | c :: rest =>
    if isPrefixCI closeTagChars (c :: rest) then
      some ([], (c :: rest).drop closeTagChars.length)
    else if dotExcluded c then none
    else
      match findClose rest with
      | some (content, after) => some (c :: content, after)
      | none => none

/-- A successful lazy capture strictly shrinks the remainder. -/
theorem findClose_length :
    ∀ l content after, findClose l = some (content, after) →
      after.length < l.length := by
  intro l
  induction l with
  | nil => intro _ _ h; simp [findClose] at h
  | cons c rest ih =>
    intro content after h
    rw [findClose] at h
    split at h
    · rw [Option.some_inj] at h
      rw [Prod.mk.injEq] at h
      obtain ⟨_, h2⟩ := h
      subst h2
      simp only [List.length_drop, List.length_cons]
      have : closeTagChars.length = 7 := by decide
      omega
    · split at h
      · exact absurd h (by simp)
      · cases hrec : findClose rest with
        | none => rw [hrec] at h; exact absurd h (by simp)
        | some p =>
          obtain ⟨cont, aft⟩ := p
          rw [hrec, Option.some_inj, Prod.mk.injEq] at h
          obtain ⟨_, h2⟩ := h
          subst h2
          have := ih cont aft hrec
          simp only [List.length_cons]
          omega

/-- The global regex replace: scan left to right, rewrite each matched
span through `lbl`, copy everything else.  The `fuel` argument only makes
the recursion structural; by `findClose_length` a fuel of the input length
is never exhausted. -/
def relabelSpansGo (lbl : List Char → List Char) : Nat → List Char → List Char
  | _, [] => []
  | 0, l => l
  | fuel + 1, c :: rest =>
    if isPrefixCI openTagChars (c :: rest) then
      match findClose ((c :: rest).drop openTagChars.length) with
      | some (content, after) => lbl content ++ relabelSpansGo lbl fuel after
      | none => c :: relabelSpansGo lbl fuel rest
    else c :: relabelSpansGo lbl fuel rest

/-- The global regex replace over a whole fragment. -/
def relabelSpans (lbl : List Char → List Char) (l : List Char) : List Char :=
  relabelSpansGo lbl l.length l

/-- JavaScript `term.split(/\s+/).filter(t => t.length > 0)`: whitespace
runs separate tokens, empty tokens are dropped. -/
def splitWsAux : List Char → List Char → List (List Char)
  | [], acc => if acc.isEmpty then [] else [acc.reverse]
  | c :: rest, acc =>
    if isJsSpace c then
      if acc.isEmpty then splitWsAux rest []
      else acc.reverse :: splitWsAux rest []
    else splitWsAux rest (c :: acc)

/-- Split a character list into its whitespace-separated tokens. -/
def splitWs (l : List Char) : List (List Char) := splitWsAux l []

/-- The replacement callback of the component: keep the `highlight` class
when the lowercased inner text equals one of the query terms or the whole
query, else switch to `highlight-fuzzy`; the inner text itself is emitted
unchanged. -/
def labelReplacement (terms : List (List Char)) (term : List Char)
    (content : List Char) : List Char :=
  let lowerContent := content.map lowerChar
  if terms.any (fun t => t == lowerContent) || term == lowerContent then
    openTagChars ++ content ++ closeTagChars
  else
    fuzzyOpenChars ++ content ++ closeTagChars

/-- `processHighlights` (file-upload.component.ts lines 121–141). -/
def processHighlights (searchTerm html : String) : String :=
  if jsTrim searchTerm = "" || html = "" then html
  else
    let term := (jsTrim searchTerm).data.map lowerChar
    let terms := splitWs term
    String.mk (relabelSpans (labelReplacement terms term) html.data)

/-! ### The claim's reading of the classifier -/

/-- Skip to just after the next `>` (the tail of a `<[^>]*>` match). -/
def dropTag : List Char → Option (List Char)
  | [] => none
  | c :: rest => if c == '>' then some rest else dropTag rest

/-- Skipping a tag strictly shrinks the list. -/
theorem dropTag_length :
    ∀ l after, dropTag l = some after → after.length < l.length := by
  intro l
  induction l with
  | nil => intro _ h; simp [dropTag] at h
  | cons c rest ih =>
    intro after h
    rw [dropTag] at h
    split at h
    · rw [Option.some_inj] at h
      subst h
      simp
    · have := ih after h
      simp only [List.length_cons]
      omega

/-- Strip nested markup: remove every `<[^>]*>` run, keep everything else
(the spec's "strip any nested markup", as the second component variant
implements it with `content.replace(/<[^>]*>/g, '')`).  The `fuel`
argument only makes the recursion structural; by `dropTag_length` a fuel
of the input length is never exhausted. -/
def stripMarkupGo : Nat → List Char → List Char
  | _, [] => []
  | 0, l => l
  | fuel + 1, c :: rest =>
    if c == '<' then
      match dropTag rest with
      | some after => stripMarkupGo fuel after
      | none => c :: stripMarkupGo fuel rest
    else c :: stripMarkupGo fuel rest

/-- Strip every `<[^>]*>` run from a character list. -/
def stripMarkup (l : List Char) : List Char := stripMarkupGo l.length l

/-- The claim's classification of a wrapped span: inner text with nested
markup stripped and lowercased, equal to some whitespace-split query term
or to the full trimmed lowercased query. -/
def specSpanExact (searchTerm : String) (inner : List Char) : Bool :=
  let term := (jsTrim searchTerm).data.map lowerChar
  let terms := splitWs term
  let stripped := (stripMarkup inner).map lowerChar
  terms.any (fun t => t == stripped) || term == stripped

/-- The classification the code actually applies to a wrapped span: the
raw inner text lowercased (nested markup not stripped), equal to some
query term or to the full trimmed query. -/
def codeSpanExact (searchTerm : String) (inner : List Char) : Bool :=
  let term := (jsTrim searchTerm).data.map lowerChar
  let terms := splitWs term
  let lc := inner.map lowerChar
  terms.any (fun t => t == lc) || term == lc

/-- A highlight fragment, parsed: plain text interleaved with wrapped
spans. -/
inductive Seg
  | plainText (t : List Char)
  | spanText (inner : List Char)
deriving DecidableEq, Repr

/-- Render a segment back to the raw fragment text. -/
def renderSeg : Seg → List Char
  | Seg.plainText t => t
  | Seg.spanText c => openTagChars ++ c ++ closeTagChars

/-- Render a whole fragment. -/
def renderFrag (segs : List Seg) : List Char :=
  (segs.map renderSeg).flatten

/-- Well-formed segments: plain text holds no markup opener, span inner
text holds no markup and no line terminator. -/
def segOk : Seg → Bool
  | Seg.plainText t => t.all (fun c => !(lowerChar c == '<'))
  | Seg.spanText c => c.all (fun ch => !(lowerChar ch == '<') && !(dotExcluded ch))

/-- The expected output for one segment: plain text unchanged; a span
re-wrapped as exact or fuzzy by `codeSpanExact`, its inner text (casing
included) preserved. -/
def relabelSeg (searchTerm : String) : Seg → List Char
  | Seg.plainText t => t
  | Seg.spanText c =>
      if codeSpanExact searchTerm c then openTagChars ++ c ++ closeTagChars
      else fuzzyOpenChars ++ c ++ closeTagChars

/-! ### Lemmas about the highlight scanner -/

/-- A case-insensitive prefix test fails on mismatching heads. -/
theorem isPrefixCI_head_false (p : Char) (ps : List Char) (c : Char)
    (rest : List Char) (hc : ¬ lowerChar c = lowerChar p) :
    isPrefixCI (p :: ps) (c :: rest) = false := by
  show ((lowerChar p == lowerChar c) && isPrefixCI ps rest) = false
  rw [beq_eq_false_iff_ne.mpr (fun h => hc h.symm), Bool.false_and]

/-- Every list is a case-insensitive prefix of itself extended. -/
theorem isPrefixCI_refl_append (p s : List Char) :
    isPrefixCI p (p ++ s) = true := by
  induction p with
  | nil => rfl
  | cons a as ih =>
    show ((lowerChar a == lowerChar a) && isPrefixCI as (as ++ s)) = true
    rw [beq_self_eq_true, ih, Bool.and_self]

/-- On span content free of markup openers and line terminators, the lazy
capture stops exactly at the appended close tag. -/
theorem findClose_wellFormed (r : List Char) :
    ∀ c : List Char,
      c.all (fun ch => !(lowerChar ch == '<') && !(dotExcluded ch)) = true →
      findClose (c ++ (closeTagChars ++ r)) = some (c, r) := by
  intro c
  induction c with
  | nil =>
    intro _
    show findClose (closeTagChars ++ r) = some ([], r)
    rw [show closeTagChars ++ r = '<' :: ("/span>".data ++ r) from rfl]
    simp only [findClose]
    have hp : isPrefixCI closeTagChars ('<' :: ("/span>".data ++ r)) = true :=
      isPrefixCI_refl_append closeTagChars r
    have hd : ('<' :: ("/span>".data ++ r)).drop closeTagChars.length = r :=
      List.drop_left closeTagChars r
    rw [hp, hd]
    simp
  | cons ch c' ih =>
    intro hall
    rw [List.all_cons, Bool.and_eq_true] at hall
    obtain ⟨hch, htail⟩ := hall
    rw [Bool.and_eq_true] at hch
    obtain ⟨hlt, hdot⟩ := hch
    have hlt2 : (lowerChar ch == '<') = false := by simpa using hlt
    have hdot2 : dotExcluded ch = false := by simpa using hdot
    show findClose (ch :: (c' ++ (closeTagChars ++ r))) = some (ch :: c', r)
    simp only [findClose]
    have hp : isPrefixCI closeTagChars
        (ch :: (c' ++ (closeTagChars ++ r))) = false := by
      have hne : ¬ lowerChar ch = lowerChar '<' := by
        intro he
        rw [show lowerChar '<' = '<' from rfl] at he
        exact absurd (beq_iff_eq.mpr he) (by simp [hlt2])
      exact isPrefixCI_head_false '<' ("/span>".data) ch _ hne
    rw [hp, hdot2, ih htail]
    simp

/-- The scanner ignores its fuel as long as the fuel covers the input. -/
theorem relabelSpansGo_fuel (lbl : List Char → List Char) :
    ∀ fuel fuel2 l, l.length ≤ fuel → l.length ≤ fuel2 →
      relabelSpansGo lbl fuel l = relabelSpansGo lbl fuel2 l := by
  intro fuel
  induction fuel with
  | zero =>
    intro fuel2 l hl _
    have : l = [] := List.length_eq_zero.mp (Nat.le_zero.mp hl)
    subst this
    cases fuel2 <;> rfl
  | succ f ih =>
    intro fuel2 l hl hl2
    cases l with
    | nil => cases fuel2 <;> rfl
    | cons c rest =>
      cases fuel2 with
      | zero => simp at hl2
      | succ f2 =>
        have hrest : rest.length ≤ f := by
          simp only [List.length_cons] at hl; omega
        have hrest2 : rest.length ≤ f2 := by
          simp only [List.length_cons] at hl2; omega
        simp only [relabelSpansGo]
        by_cases hp : isPrefixCI openTagChars (c :: rest) = true
        · rw [hp]
          cases hfc : findClose ((c :: rest).drop openTagChars.length) with
          | some p =>
            obtain ⟨content, after⟩ := p
            have hlen := findClose_length _ _ _ hfc
            have h24 : openTagChars.length = 24 := rfl
            rw [List.length_drop, h24, List.length_cons] at hlen
            have ha : after.length ≤ f := by omega
            have ha2 : after.length ≤ f2 := by omega
            show lbl content ++ relabelSpansGo lbl f after =
              lbl content ++ relabelSpansGo lbl f2 after
            rw [ih f2 after ha ha2]
          | none =>
            show c :: relabelSpansGo lbl f rest = c :: relabelSpansGo lbl f2 rest
            rw [ih f2 rest hrest hrest2]
        · rw [Bool.not_eq_true] at hp
          rw [hp]
          show c :: relabelSpansGo lbl f rest = c :: relabelSpansGo lbl f2 rest
          rw [ih f2 rest hrest hrest2]

/-- The scanner copies markup-free plain text verbatim. -/
theorem relabelSpans_plain_step (lbl : List Char → List Char)
    (t r : List Char)
    (ht : t.all (fun c => !(lowerChar c == '<')) = true) :
    relabelSpans lbl (t ++ r) = t ++ relabelSpans lbl r := by
  induction t with
  | nil => rfl
  | cons c t2 ih =>
    rw [List.all_cons, Bool.and_eq_true] at ht
    obtain ⟨hc, htail⟩ := ht
    have hc2 : (lowerChar c == '<') = false := by simpa using hc
    show relabelSpansGo lbl ((c :: (t2 ++ r)).length) (c :: (t2 ++ r)) =
      c :: (t2 ++ relabelSpans lbl r)
    rw [List.length_cons]
    simp only [relabelSpansGo]
    have hp : isPrefixCI openTagChars (c :: (t2 ++ r)) = false := by
      have hne : ¬ lowerChar c = lowerChar '<' := by
        intro he
        rw [show lowerChar '<' = '<' from rfl] at he
        exact absurd (beq_iff_eq.mpr he) (by simp [hc2])
      exact isPrefixCI_head_false '<' ("span class=\"highlight\">".data) c _ hne
    rw [hp]
    simp only [Bool.false_eq_true, if_false, List.cons.injEq, true_and]
    exact ih htail

/-- The scanner rewrites one well-formed wrapped span through the
replacement callback and moves on behind it. -/
theorem relabelSpans_span_step (lbl : List Char → List Char)
    (c r : List Char)
    (hc : c.all (fun ch => !(lowerChar ch == '<') && !(dotExcluded ch)) = true) :
    relabelSpans lbl (openTagChars ++ (c ++ (closeTagChars ++ r))) =
      lbl c ++ relabelSpans lbl r := by
  show relabelSpansGo lbl
      (openTagChars ++ (c ++ (closeTagChars ++ r))).length
      (openTagChars ++ (c ++ (closeTagChars ++ r))) = _
  have hlen : (openTagChars ++ (c ++ (closeTagChars ++ r))).length =
      (23 + (c ++ (closeTagChars ++ r)).length) + 1 := by
    rw [List.length_append]
    rw [show openTagChars.length = 24 from rfl]
    omega
  rw [hlen]
  rw [show openTagChars ++ (c ++ (closeTagChars ++ r)) =
    '<' :: ("span class=\"highlight\">".data ++ (c ++ (closeTagChars ++ r)))
    from rfl]
  simp only [relabelSpansGo]
  have hp : isPrefixCI openTagChars
      ('<' :: ("span class=\"highlight\">".data ++ (c ++ (closeTagChars ++ r)))) = true :=
    isPrefixCI_refl_append openTagChars (c ++ (closeTagChars ++ r))
  rw [hp]
  have hdrop : ('<' :: ("span class=\"highlight\">".data ++
      (c ++ (closeTagChars ++ r)))).drop openTagChars.length =
      c ++ (closeTagChars ++ r) :=
    List.drop_left openTagChars (c ++ (closeTagChars ++ r))
  rw [hdrop, findClose_wellFormed r c hc]
  simp only [if_true]
  congr 1
  apply relabelSpansGo_fuel
  · rw [List.length_append, List.length_append]
    rw [show closeTagChars.length = 7 from rfl]
    omega
  · exact Nat.le_refl _

/-- A fragment that renders to nothing relabels to nothing. -/
theorem relabelSeg_flatten_nil (searchTerm : String) :
    ∀ segs : List Seg, renderFrag segs = [] →
      (segs.map (relabelSeg searchTerm)).flatten = [] := by
  intro segs
  induction segs with
  | nil => intro _; rfl
  | cons s ss ih =>
    intro h
    have h2 : renderSeg s = [] ∧ renderFrag ss = [] := by
      rw [renderFrag, List.map_cons, List.flatten_cons] at h
      exact List.append_eq_nil.mp h
    rw [List.map_cons, List.flatten_cons, ih h2.2, List.append_nil]
    cases s with
    | plainText t => exact h2.1
    | spanText c =>
      exfalso
      have := h2.1
      rw [renderSeg] at this
      rw [show openTagChars ++ c ++ closeTagChars =
        '<' :: ("span class=\"highlight\">".data ++ c ++ closeTagChars)
        from rfl] at this
      exact List.cons_ne_nil _ _ this

/-- The scanner, run on a rendered fragment, maps plain text to itself and
each span through the replacement callback. -/
theorem relabelSpans_renderFrag (lbl : List Char → List Char) :
    ∀ segs : List Seg, (∀ s ∈ segs, segOk s = true) →
      relabelSpans lbl (renderFrag segs) =
        (segs.map (fun s =>
          match s with
          | Seg.plainText t => t
          | Seg.spanText c => lbl c)).flatten := by
  intro segs
  induction segs with
  | nil => intro _; rfl
  | cons s ss ih =>
    intro hok
    have hs := hok s (List.mem_cons_self _ _)
    have hss : ∀ x ∈ ss, segOk x = true :=
      fun x hx => hok x (List.mem_cons_of_mem _ hx)
    rw [show renderFrag (s :: ss) = renderSeg s ++ renderFrag ss from rfl,
      List.map_cons, List.flatten_cons]
    cases s with
    | plainText t =>
      show relabelSpans lbl (t ++ renderFrag ss) = t ++ _
      rw [relabelSpans_plain_step lbl t _ hs]
      rw [ih hss]
    | spanText c =>
      show relabelSpans lbl
        ((openTagChars ++ c ++ closeTagChars) ++ renderFrag ss) = lbl c ++ _
      rw [List.append_assoc, List.append_assoc]
      rw [relabelSpans_span_step lbl c _ hs]
      rw [ih hss]

/-! ### Lemmas about the reconciliation model -/

/-- `contains` agrees with membership for lawful `BEq`. -/
theorem contains_iff_mem {α : Type} [BEq α] [LawfulBEq α] (l : List α) (a : α) :
    l.contains a = true ↔ a ∈ l := List.elem_iff

/-- Whether the target is present or not, `deleteDocument` leaves exactly
the documents with a different key. -/
theorem deleteDocument_eq_filter (idx : List ESDoc) (id : String) :
    deleteDocument idx id = idx.filter (fun e => !(e.filename == id)) := by
  by_cases hany : (idx.any fun e => e.filename == id) = true
  · simp [deleteDocument, esDelete, hany]
  · rw [Bool.not_eq_true] at hany
    have hself : idx.filter (fun e => !(e.filename == id)) = idx := by
      rw [List.filter_eq_self]
      intro a ha
      simpa using List.any_eq_false.mp hany a ha
    simp [deleteDocument, esDelete, hany, hself]

/-- The orphan-deletion loop filters out exactly the orphaned keys. -/
theorem deleteOrphans_eq_filter (orphans : List ESDoc) :
    ∀ idx : List ESDoc,
      deleteOrphans idx orphans =
        idx.filter
          (fun e => !((orphans.map (fun d => d.filename)).contains e.filename)) := by
  induction orphans with
  | nil => intro idx; simp [deleteOrphans]
  | cons o os ih =>
    intro idx
    have h1 : deleteOrphans idx (o :: os) =
        deleteOrphans (deleteDocument idx o.filename) os := rfl
    rw [h1, ih, deleteDocument_eq_filter, List.filter_filter]
    apply List.filter_congr
    intro x _
    simp only [List.map_cons, List.contains_cons, Bool.not_or]
    rw [Bool.and_comm]

/-- A document survives orphan deletion exactly when it was indexed and
still has a backing storage entry. -/
theorem mem_deleteOrphans_iff (idx : List ESDoc) (files : List String)
    (d : ESDoc) :
    d ∈ deleteOrphans idx (orphanedRecords idx files) ↔
      d ∈ idx ∧ files.contains d.filename = true := by
  rw [deleteOrphans_eq_filter, List.mem_filter]
  constructor
  · rintro ⟨hd, hp⟩
    refine ⟨hd, ?_⟩
    by_contra hc
    rw [Bool.not_eq_true] at hc
    have hdo : d ∈ orphanedRecords idx files :=
      List.mem_filter.mpr ⟨hd, by simp only [hc, Bool.not_false]⟩
    have hmem : d.filename ∈
        (orphanedRecords idx files).map (fun x => x.filename) :=
      List.mem_map.mpr ⟨d, hdo, rfl⟩
    rw [(contains_iff_mem _ _).mpr hmem] at hp
    simp at hp
  · rintro ⟨hd, hc⟩
    refine ⟨hd, ?_⟩
    rw [Bool.not_eq_true', ← Bool.not_eq_true]
    intro hin
    obtain ⟨o, ho, hof⟩ :=
      List.mem_map.mp ((contains_iff_mem _ _).mp hin)
    have h2 : (!(files.contains o.filename)) = true := by
      simpa using (List.mem_filter.mp ho).2
    rw [hof, hc] at h2
    simp at h2

/-- Every member of an upsert result is an old document or the new one. -/
theorem mem_indexUpsert (l : List ESDoc) (d x : ESDoc) :
    x ∈ indexUpsert l d → x ∈ l ∨ x = d := by
  unfold indexUpsert
  split
  · intro hx
    obtain ⟨e, he, hex⟩ := List.mem_map.mp hx
    by_cases hb : (e.filename == d.filename) = true
    · right; rw [← hex]; simp [hb]
    · left
      rw [Bool.not_eq_true] at hb
      rw [← hex]
      simp only [hb]
      simpa using he
  · intro hx
    rcases List.mem_append.mp hx with h | h
    · left; exact h
    · right; simpa using h

/-- A document with a different key survives an upsert unchanged. -/
theorem mem_indexUpsert_of_mem (l : List ESDoc) (d x : ESDoc)
    (hx : x ∈ l) (hne : ¬ x.filename = d.filename) :
    x ∈ indexUpsert l d := by
  unfold indexUpsert
  split
  · apply List.mem_map.mpr
    refine ⟨x, hx, ?_⟩
    simp [beq_eq_false_iff_ne.mpr hne]
  · exact List.mem_append.mpr (Or.inl hx)

/-- Upserting never removes a key. -/
theorem esIds_indexUpsert_mono (l : List ESDoc) (d : ESDoc) (a : String)
    (ha : a ∈ esIds l) : a ∈ esIds (indexUpsert l d) := by
  unfold indexUpsert esIds at *
  obtain ⟨e, he, hea⟩ := List.mem_map.mp ha
  split
  · rw [List.map_map]
    apply List.mem_map.mpr
    refine ⟨e, he, ?_⟩
    show (if e.filename == d.filename then d else e).filename = a
    by_cases hb : (e.filename == d.filename) = true
    · rw [if_pos hb, ← beq_iff_eq.mp hb]
      exact hea
    · rw [Bool.not_eq_true] at hb
      rw [if_neg (by simp [hb])]
      exact hea
  · rw [List.map_append]
    exact List.mem_append.mpr (Or.inl (List.mem_map.mpr ⟨e, he, hea⟩))

/-- After an upsert the new document's key is present. -/
theorem self_mem_esIds_indexUpsert (l : List ESDoc) (d : ESDoc) :
    d.filename ∈ esIds (indexUpsert l d) := by
  unfold indexUpsert esIds
  split
  · next h =>
    obtain ⟨e, he, hb⟩ := List.any_eq_true.mp h
    rw [List.map_map]
    apply List.mem_map.mpr
    refine ⟨e, he, ?_⟩
    show (if e.filename == d.filename then d else e).filename = d.filename
    rw [if_pos hb]
  · rw [List.map_append]
    apply List.mem_append.mpr
    right
    simp

/-- Unfolding one step of the indexing loop. -/
theorem indexLoop_cons (entries : List DirEntry)
    (extract : String → String → Except Unit String)
    (st : LoopState) (n : String) (names : List String) :
    indexLoop entries extract st (n :: names) =
      indexLoop entries extract (syncStep entries extract st n) names := rfl

/-- Loop step on an unsupported name: only the skip counter moves. -/
theorem syncStep_unsupported (entries : List DirEntry)
    (extract : String → String → Except Unit String)
    (st : LoopState) (n : String) (hmt : getMimeType n = none) :
    syncStep entries extract st n =
      { st with skippedCount := st.skippedCount + 1 } := by
  unfold syncStep
  simp only [hmt]

/-- Loop step when the stat lookup fails: nothing changes. -/
theorem syncStep_noStat (entries : List DirEntry)
    (extract : String → String → Except Unit String)
    (st : LoopState) (n m : String) (hmt : getMimeType n = some m)
    (hf : entries.find? (fun e => e.name == n) = none) :
    syncStep entries extract st n = st := by
  unfold syncStep
  simp only [hmt, hf]

/-- Loop step when extraction throws: the failure is caught, nothing
changes. -/
theorem syncStep_extractError (entries : List DirEntry)
    (extract : String → String → Except Unit String)
    (st : LoopState) (n m : String) (e : DirEntry) (u : Unit)
    (hmt : getMimeType n = some m)
    (hf : entries.find? (fun x => x.name == n) = some e)
    (hx : extract n m = Except.error u) :
    syncStep entries extract st n = st := by
  unfold syncStep
  simp only [hmt, hf, hx]

/-- Loop step when extraction succeeds: the document is upserted and
counted. -/
theorem syncStep_extractOk (entries : List DirEntry)
    (extract : String → String → Except Unit String)
    (st : LoopState) (n m content : String) (e : DirEntry)
    (hmt : getMimeType n = some m)
    (hf : entries.find? (fun x => x.name == n) = some e)
    (hx : extract n m = Except.ok content) :
    syncStep entries extract st n =
      { cur := indexUpsert st.cur
          { filename := n, originalname := n, content := content,
            size := e.size, uploadDate := e.mtime },
        upserted := st.upserted ++
          [{ filename := n, originalname := n, content := content,
             size := e.size, uploadDate := e.mtime }],
        indexedCount := st.indexedCount + 1,
        skippedCount := st.skippedCount } := by
  unfold syncStep
  simp only [hmt, hf, hx]

/-- The step's current index either stays or receives one upsert keyed by
the processed name. -/
theorem syncStep_cur_cases (entries : List DirEntry)
    (extract : String → String → Except Unit String)
    (st : LoopState) (n : String) :
    (syncStep entries extract st n).cur = st.cur ∨
    ∃ d : ESDoc, d.filename = n ∧
      (syncStep entries extract st n).cur = indexUpsert st.cur d := by
  cases hmt : getMimeType n with
  | none => left; rw [syncStep_unsupported entries extract st n hmt]
  | some m =>
    cases hf : entries.find? (fun x => x.name == n) with
    | none => left; rw [syncStep_noStat entries extract st n m hmt hf]
    | some e =>
      cases hx : extract n m with
      | error u =>
        left; rw [syncStep_extractError entries extract st n m e u hmt hf hx]
      | ok content =>
        right
        exact ⟨_, rfl, by rw [syncStep_extractOk entries extract st n m content e hmt hf hx]⟩

/-- An invariant on document keys carried through the indexing loop. -/
theorem indexLoop_cur_pred (entries : List DirEntry)
    (extract : String → String → Except Unit String) (p : String → Bool) :
    ∀ names st, (∀ d ∈ st.cur, p d.filename = true) →
      (∀ n ∈ names, p n = true) →
      ∀ d ∈ (indexLoop entries extract st names).cur, p d.filename = true := by
  intro names
  induction names with
  | nil => intro st h1 _ d hd; exact h1 d hd
  | cons n ns ih =>
    intro st h1 h2 d hd
    rw [indexLoop_cons] at hd
    refine ih (syncStep entries extract st n) ?_
      (fun m hm => h2 m (List.mem_cons_of_mem _ hm)) d hd
    intro e he
    unfold syncStep at he
    cases hmt : getMimeType n with
    | none => simp only [hmt] at he; exact h1 e he
    | some m =>
      simp only [hmt] at he
      cases hf : entries.find? (fun x => x.name == n) with
      | none => simp only [hf] at he; exact h1 e he
      | some fe =>
        simp only [hf] at he
        cases hx : extract n m with
        | error u => simp only [hx] at he; exact h1 e he
        | ok content =>
          simp only [hx] at he
          rcases mem_indexUpsert _ _ _ he with h | h
          · exact h1 e h
          · rw [h]
            exact h2 n (List.mem_cons_self _ _)

/-- A document whose key is processed by no loop iteration is preserved. -/
theorem indexLoop_mem_preserved (entries : List DirEntry)
    (extract : String → String → Except Unit String) :
    ∀ names st (d : ESDoc), d ∈ st.cur →
      (∀ n ∈ names, ¬ n = d.filename) →
      d ∈ (indexLoop entries extract st names).cur := by
  intro names
  induction names with
  | nil => intro st d hd _; exact hd
  | cons n ns ih =>
    intro st d hd hne
    rw [indexLoop_cons]
    refine ih (syncStep entries extract st n) d ?_
      (fun m hm => hne m (List.mem_cons_of_mem _ hm))
    rcases syncStep_cur_cases entries extract st n with h | ⟨dn, hdn, h⟩
    · rw [h]; exact hd
    · rw [h]
      apply mem_indexUpsert_of_mem _ _ _ hd
      intro hcontra
      exact hne n (List.mem_cons_self _ _) (hdn ▸ hcontra).symm

/-- Keys present in the loop state stay present. -/
theorem indexLoop_ids_mono (entries : List DirEntry)
    (extract : String → String → Except Unit String) :
    ∀ names st (a : String), a ∈ esIds st.cur →
      a ∈ esIds (indexLoop entries extract st names).cur := by
  intro names
  induction names with
  | nil => intro st a ha; exact ha
  | cons n ns ih =>
    intro st a ha
    rw [indexLoop_cons]
    apply ih
    rcases syncStep_cur_cases entries extract st n with h | ⟨dn, _, h⟩
    · rw [h]; exact ha
    · rw [h]; exact esIds_indexUpsert_mono _ _ _ ha

/-- A processed file whose stat and extraction succeed ends up indexed. -/
theorem indexLoop_ids_of_ok (entries : List DirEntry)
    (extract : String → String → Except Unit String) :
    ∀ names st (n : String) (m c : String), n ∈ names →
      getMimeType n = some m →
      (entries.find? (fun e => e.name == n)).isSome = true →
      extract n m = Except.ok c →
      n ∈ esIds (indexLoop entries extract st names).cur := by
  intro names
  induction names with
  | nil => intro st n m c hn _ _ _; exact absurd hn (List.not_mem_nil _)
  | cons k ks ih =>
    intro st n m c hn hm hf hx
    rcases List.mem_cons.mp hn with heq | htail
    · subst heq
      rw [indexLoop_cons]
      apply indexLoop_ids_mono
      obtain ⟨fe, hfe⟩ := Option.isSome_iff_exists.mp hf
      rw [syncStep_extractOk entries extract st n m c fe hm hfe hx]
      exact self_mem_esIds_indexUpsert _ _
    · rw [indexLoop_cons]
      exact ih _ n m c htail hm hf hx

/-- When every processed file's extraction fails deterministically, the
loop is a no-op: no upsert, no count, no index change. -/
theorem indexLoop_noop (entries : List DirEntry)
    (extract : String → String → Except Unit String) :
    ∀ names st,
      (∀ n ∈ names, ∃ m u, getMimeType n = some m ∧
        extract n m = Except.error u) →
      indexLoop entries extract st names = st := by
  intro names
  induction names with
  | nil => intro st _; rfl
  | cons n ns ih =>
    intro st h
    rw [indexLoop_cons]
    have hstep : syncStep entries extract st n = st := by
      obtain ⟨m, u, hm, hx⟩ := h n (List.mem_cons_self _ _)
      cases hf : entries.find? (fun x => x.name == n) with
      | none => exact syncStep_noStat entries extract st n m hm hf
      | some fe => exact syncStep_extractError entries extract st n m fe u hm hf hx
    rw [hstep]
    exact ih st (fun k hk => h k (List.mem_cons_of_mem _ hk))

/-! ### Concrete inputs used by witnesses and counterexamples -/

/-- An extractor that always succeeds with empty text. -/
def extractOkEmpty : String → String → Except Unit String :=
  fun _ _ => Except.ok ""

/-- An indexed document whose backing file is gone. -/
def docA : ESDoc :=
  { filename := "a.pdf", originalname := "a.pdf", content := "quarterly report",
    size := 3, uploadDate := 11 }

/-- A storage entry of unsupported type. -/
def txtEntry : DirEntry :=
  { name := "notes.txt", isFile := true, size := 5, mtime := 0 }

/-- A supported storage entry. -/
def pdfEntry : DirEntry :=
  { name := "b.pdf", isFile := true, size := 9, mtime := 7 }

/-! ## Claim theorems -/

/-- Claim C1: for every non-empty, non-whitespace query, the request built
by `searchDocuments` is a `bool`/`should` disjunction with
`minimum_should_match = 1` whose clauses form exactly the four spec tiers:
two boost-100 exact-phrase clauses covering the unanalyzed exact-content
field and the filename field (tier 1), one boost-50 all-terms AND clause
(tier 2), one boost-10 fuzzy clause with bounded prefix length (tier 3)
and one boost-1 any-term OR clause (tier 4), each over filename/content. -/
theorem searchDocuments_builds_four_tiers (query : String)
    (h : ¬ jsTrim query = "") :
    ∃ c1 c2 c3 c4 c5,
      (searchDocumentsRequest query).query =
        TopQuery.boolQ { should := [c1, c2, c3, c4, c5],
                         minimumShouldMatch := some 1 } ∧
      isTier1Clause (jsTrim query) c1 = true ∧
      isTier1Clause (jsTrim query) c2 = true ∧
      phraseField c1 = some "content.exact" ∧
      phraseField c2 = some "filename" ∧
      isTier2Clause (jsTrim query) c3 = true ∧
      isTier3Clause (jsTrim query) c4 = true ∧
      isTier4Clause (jsTrim query) c5 = true := by
  have hc1 : coversFilenameContent ["filename^2", "content"] = true := by decide
  have hc2 : coversFilenameContent ["filename", "content"] = true := by decide
  refine ⟨Clause.matchPhrase "content.exact" (jsTrim query) 100 0,
      Clause.matchPhrase "filename" (jsTrim query) 100 0,
      Clause.multiMatch
        { fields := ["filename^2", "content"], query := jsTrim query,
          op := some MatchOp.and, fuzziness := none,
          prefixLength := none, boost := 50 },
      Clause.multiMatch
        { fields := ["filename", "content"], query := jsTrim query,
          op := none, fuzziness := some "AUTO",
          prefixLength := some 1, boost := 10 },
      Clause.multiMatch
        { fields := ["filename", "content"], query := jsTrim query,
          op := some MatchOp.or, fuzziness := none,
          prefixLength := none, boost := 1 },
      ?_, ?_, ?_, ?_, ?_, ?_, ?_, ?_⟩
  · simp [searchDocumentsRequest, h]
  · simp [isTier1Clause]
  · simp [isTier1Clause]
  · rfl
  · rfl
  · simp [isTier2Clause, hc1]
  · simp [isTier3Clause, hc2]
  · simp [isTier4Clause, hc2]

/-- Witness for C1 at the query "report". -/
theorem searchDocuments_builds_four_tiers_witness :
    (¬ jsTrim "report" = "") ∧
    (∃ c1 c2 c3 c4 c5,
      (searchDocumentsRequest "report").query =
        TopQuery.boolQ { should := [c1, c2, c3, c4, c5],
                         minimumShouldMatch := some 1 } ∧
      isTier1Clause (jsTrim "report") c1 = true ∧
      isTier1Clause (jsTrim "report") c2 = true ∧
      phraseField c1 = some "content.exact" ∧
      phraseField c2 = some "filename" ∧
      isTier2Clause (jsTrim "report") c3 = true ∧
      isTier3Clause (jsTrim "report") c4 = true ∧
      isTier4Clause (jsTrim "report") c5 = true) :=
  ⟨by decide, searchDocuments_builds_four_tiers "report" (by decide)⟩

/-- Claim C2: the tier boosts the built query carries are
`[100, 100, 50, 10, 1]`, the exact tier's boost 100 strictly exceeds
50 + 10 + 1, and under additive per-tier scoring any document matching the
exact tier scores strictly above any document not matching it, whatever
lower tiers either one matches — in particular an exact-phrase document
ranks strictly above a fuzzy-only one. -/
theorem searchDocuments_boost_dominance (query : String)
    (h : ¬ jsTrim query = "") :
    shouldBoosts query = [100, 100, 50, 10, 1] ∧
    100 > 50 + 10 + 1 ∧
    ∀ m1 m2 : TierMatches, m1.t1 = true → m2.t1 = false →
      additiveTierScore 100 50 10 1 m1 > additiveTierScore 100 50 10 1 m2 := by
  refine ⟨?_, by norm_num, ?_⟩
  · simp [shouldBoosts, searchDocumentsRequest, h, clauseBoost]
  · intro m1 m2 h1 h2
    obtain ⟨a1, b1, c1, d1⟩ := m1
    obtain ⟨a2, b2, c2, d2⟩ := m2
    simp only at h1 h2
    subst h1
    subst h2
    cases b1 <;> cases c1 <;> cases d1 <;> cases b2 <;> cases c2 <;>
      cases d2 <;> decide

/-- Witness for C2: the document D1 matching only the exact tier scores
strictly above the document D2 matching all three lower tiers. -/
theorem searchDocuments_boost_dominance_witness :
    (¬ jsTrim "quarterly report" = "") ∧
    shouldBoosts "quarterly report" = [100, 100, 50, 10, 1] ∧
    additiveTierScore 100 50 10 1
        { t1 := true, t2 := false, t3 := false, t4 := false } >
      additiveTierScore 100 50 10 1
        { t1 := false, t2 := true, t3 := true, t4 := true } :=
  ⟨by decide,
   (searchDocuments_boost_dominance "quarterly report" (by decide)).1,
   (searchDocuments_boost_dominance "quarterly report" (by decide)).2.2
     _ _ rfl rfl⟩

/-- Counterexample to C6 as stated: the empty-query path does issue an
unranked `match_all`, but its cap (100) differs from the cap used by
`getAllDocuments` (10000). -/
theorem emptyQuery_cap_counterexample :
    (searchDocumentsRequest " ").query = TopQuery.matchAll ∧
    ¬ (searchDocumentsRequest " ").size = getAllDocumentsRequest.size := by
  decide

/-- Claim C6 (amended): for every empty or whitespace-only query,
`searchDocuments` bypasses the ranked multi-tier query and issues an
unranked `match_all` listing capped at 100 — which is the ranked search's
own cap, not the 10000 cap used by `getAllDocuments`. -/
theorem emptyQuery_matchAll_cap (query : String) (h : jsTrim query = "") :
    searchDocumentsRequest query =
      { query := TopQuery.matchAll, highlight := none, size := 100 } ∧
    (searchDocumentsRequest "x").size = 100 ∧
    getAllDocumentsRequest.size = 10000 := by
  refine ⟨?_, by decide, rfl⟩
  simp [searchDocumentsRequest, h]

/-- Witness for C6 at the whitespace query. -/
theorem emptyQuery_matchAll_cap_witness :
    jsTrim "   " = "" ∧
    (searchDocumentsRequest "   " =
       { query := TopQuery.matchAll, highlight := none, size := 100 } ∧
     (searchDocumentsRequest "x").size = 100 ∧
     getAllDocumentsRequest.size = 10000) :=
  ⟨by decide, emptyQuery_matchAll_cap "   " (by decide)⟩

/-- Counterexample to C7 as stated: the ranked query targets the
`filename` field, but that field does not carry the splitting analyzer
(it has no explicit mapping at all). -/
theorem mapping_analyzer_counterexample :
    (rankedQueryFields "report").contains "filename" = true ∧
    hasSplittingAnalyzer "filename" = false ∧
    mappingFor "filename" = none := by
  decide

/-- Claim C7 (amended): the schema assigns the delimiter-splitting,
case-change-splitting, original-token-preserving analyzer to the
`originalname` field — a filename-like field the ranked multi-tier query
does not target — while the `filename` field the query does target has no
explicit mapping; the content field does carry an `exact` sub-field used
by the exact-phrase tier. -/
theorem mapping_analyzer_assignment (query : String)
    (h : ¬ jsTrim query = "") :
    hasSplittingAnalyzer "originalname" = true ∧
    contentHasExactSub = true ∧
    mappingFor "filename" = none ∧
    (rankedQueryFields query).contains "filename" = true ∧
    (rankedQueryFields query).contains "content.exact" = true ∧
    (rankedQueryFields query).contains "originalname" = false := by
  have hr : rankedQueryFields query =
      ["content.exact", "filename", "filename", "content", "filename",
       "content", "filename", "content"] := by
    simp [rankedQueryFields, searchDocumentsRequest, h, clauseFields, fieldBase]
  refine ⟨by decide, by decide, by decide, ?_, ?_, ?_⟩ <;> rw [hr] <;> decide

/-- Witness for C7 at the query "report". -/
theorem mapping_analyzer_assignment_witness :
    (¬ jsTrim "report" = "") ∧
    (hasSplittingAnalyzer "originalname" = true ∧
     contentHasExactSub = true ∧
     mappingFor "filename" = none ∧
     (rankedQueryFields "report").contains "filename" = true ∧
     (rankedQueryFields "report").contains "content.exact" = true ∧
     (rankedQueryFields "report").contains "originalname" = false) :=
  ⟨by decide, mapping_analyzer_assignment "report" (by decide)⟩

/-- Claim C8: the code evaluated at a storage root holding one
unsupported-type file absent from the index.  The run neither indexes it
nor fails, but its reported skipped count is 0, not 1: the unsupported
entry is filtered out of `newFiles` before the loop whose skip branch
would count it, so that branch is dead and the summary's skipped count
never matches the spec's count. -/
theorem sync_skipped_count_divergence :
    (syncFilesWithElasticsearch (some [txtEntry]) [] extractOkEmpty).skippedCount = 0 ∧
    (syncFilesWithElasticsearch (some [txtEntry]) [] extractOkEmpty).upserted = [] ∧
    (syncFilesWithElasticsearch (some [txtEntry]) [] extractOkEmpty).deletedIds = [] ∧
    unsupportedAbsentCount [txtEntry] [] = 1 := by
  decide

/-- Claim C9: for every index state and id, when the id is absent the raw
delete reports 404 ("not found") and `deleteDocument` still completes
normally, leaving the index as it was — not-found is success, no error
reaches the caller. -/
theorem deleteDocument_notFound_ok (idx : List ESDoc) (id : String)
    (h : ¬ id ∈ esIds idx) :
    esDelete idx id = Except.error { statusCode := 404 } ∧
    deleteDocument idx id = idx := by
  have hany : (idx.any fun e => e.filename == id) = false := by
    rw [List.any_eq_false]
    intro e he hbe
    exact h (List.mem_map.mpr ⟨e, he, by simpa using hbe⟩)
  constructor
  · simp [esDelete, hany]
  · simp [deleteDocument, esDelete, hany]

/-- Witness for C9: deleting `"gone.pdf"` from an index that holds only
`docA` reports 404 internally and completes as success. -/
theorem deleteDocument_notFound_ok_witness :
    (¬ "gone.pdf" ∈ esIds [docA]) ∧
    (esDelete [docA] "gone.pdf" = Except.error { statusCode := 404 } ∧
     deleteDocument [docA] "gone.pdf" = [docA]) :=
  ⟨by decide, deleteDocument_notFound_ok [docA] "gone.pdf" (by decide)⟩

/-- Claim C10: when the storage root does not exist, reconciliation
creates it and returns at once: the index is left exactly as it was, no
document is deleted (orphaned though every one now is), nothing is
upserted, and the counters are zero. -/
theorem sync_missingRoot_frame (idx : List ESDoc)
    (extract : String → String → Except Unit String) :
    syncFilesWithElasticsearch none idx extract =
      { finalStorage := some [], finalIndex := idx, deletedIds := [],
        upserted := [], indexedCount := 0, skippedCount := 0,
        createdDir := true } := rfl

/-- A second indexed document, whose backing file exists. -/
def docB : ESDoc :=
  { filename := "b.pdf", originalname := "b.pdf", content := "",
    size := 9, uploadDate := 7 }

/-- Claim C4: when the storage root exists, one reconciliation run deletes
exactly those indexed ids with no matching file entry (directories and
hidden entries not counting as file entries) — an id is deleted iff some
indexed document carries it and it has no storage entry — every other
indexed document is still in the index afterwards, and the deletions
tolerate already-gone documents: repeating them changes nothing. -/
theorem sync_deletes_exactly_orphans (entries : List DirEntry)
    (idx : List ESDoc)
    (extract : String → String → Except Unit String) :
    (∀ id : String,
      id ∈ (syncFilesWithElasticsearch (some entries) idx extract).deletedIds ↔
        ∃ d ∈ idx, d.filename = id ∧
          (visibleFiles entries).contains id = false) ∧
    (∀ d ∈ idx, (visibleFiles entries).contains d.filename = true →
      d ∈ (syncFilesWithElasticsearch (some entries) idx extract).finalIndex) ∧
    deleteOrphans
        (deleteOrphans idx (orphanedRecords idx (visibleFiles entries)))
        (orphanedRecords idx (visibleFiles entries)) =
      deleteOrphans idx (orphanedRecords idx (visibleFiles entries)) := by
  have hdel : (syncFilesWithElasticsearch (some entries) idx extract).deletedIds =
      (orphanedRecords idx (visibleFiles entries)).map (fun d => d.filename) := rfl
  have hfin : (syncFilesWithElasticsearch (some entries) idx extract).finalIndex =
      (indexLoop entries extract
        { cur := deleteOrphans idx (orphanedRecords idx (visibleFiles entries)),
          upserted := [], indexedCount := 0, skippedCount := 0 }
        (newFilesOf (visibleFiles entries) (esIds idx))).cur := rfl
  refine ⟨?_, ?_, ?_⟩
  · intro id
    rw [hdel]
    constructor
    · intro hid
      obtain ⟨o, ho, rfl⟩ := List.mem_map.mp hid
      obtain ⟨hoidx, hp⟩ := List.mem_filter.mp ho
      exact ⟨o, hoidx, rfl, by simpa using hp⟩
    · rintro ⟨d, hd, rfl, hc⟩
      exact List.mem_map.mpr
        ⟨d, List.mem_filter.mpr ⟨hd, by simp only [hc, Bool.not_false]⟩, rfl⟩
  · intro d hd hc
    rw [hfin]
    apply indexLoop_mem_preserved
    · exact (mem_deleteOrphans_iff idx (visibleFiles entries) d).mpr ⟨hd, hc⟩
    · intro n hn heq
      have hpred := (List.mem_filter.mp hn).2
      have hsplit : ¬ (esIds idx).contains n = true ∧
          isSupportedFileType n = true := by simpa using hpred
      have hnot : ((esIds idx).contains n) = false :=
        Bool.not_eq_true _ ▸ hsplit.1
      have hmem : n ∈ esIds idx := by
        rw [heq]
        exact List.mem_map.mpr ⟨d, hd, rfl⟩
      rw [(contains_iff_mem _ _).mpr hmem] at hnot
      simp at hnot
  · have h := deleteOrphans_eq_filter (orphanedRecords idx (visibleFiles entries))
    rw [h, h, List.filter_filter]
    exact List.filter_congr (fun x _ => Bool.and_self _)

/-- Witness for C4: with storage holding only `b.pdf`, the run deletes the
orphaned id `a.pdf` and keeps the document for `b.pdf`. -/
theorem sync_deletes_exactly_orphans_witness :
    "a.pdf" ∈ (syncFilesWithElasticsearch (some [pdfEntry]) [docA, docB]
        extractOkEmpty).deletedIds ∧
    docB ∈ (syncFilesWithElasticsearch (some [pdfEntry]) [docA, docB]
        extractOkEmpty).finalIndex :=
  ⟨((sync_deletes_exactly_orphans [pdfEntry] [docA, docB] extractOkEmpty).1
        "a.pdf").mpr
      ⟨docA, List.mem_cons_self _ _, rfl, by decide⟩,
   (sync_deletes_exactly_orphans [pdfEntry] [docA, docB] extractOkEmpty).2.1
      docB (by decide) (by decide)⟩

/-- Counterexample to C5 as stated: starting from a missing storage root
and one indexed document, the first run only creates the (empty) root,
and the second run — with no storage change between the runs — deletes
that document: the second run's deletions are not zero. -/
theorem sync_idempotence_counterexample :
    (syncFilesWithElasticsearch
        (syncFilesWithElasticsearch none [docA] extractOkEmpty).finalStorage
        (syncFilesWithElasticsearch none [docA] extractOkEmpty).finalIndex
        extractOkEmpty).deletedIds = ["a.pdf"] ∧
    ¬ (syncFilesWithElasticsearch
        (syncFilesWithElasticsearch none [docA] extractOkEmpty).finalStorage
        (syncFilesWithElasticsearch none [docA] extractOkEmpty).finalIndex
        extractOkEmpty).deletedIds = [] := by
  decide

/-- Claim C5 (amended): when the storage root exists at the first run,
reconciliation is idempotent — running it again on the resulting storage
and index, with no storage changes in between, deletes nothing and
upserts nothing.  (When the root was missing, the first run creates an
empty root and the claim fails: see the counterexample.) -/
theorem sync_idempotent_when_root_exists (entries : List DirEntry)
    (idx : List ESDoc)
    (extract : String → String → Except Unit String) :
    (syncFilesWithElasticsearch
        (syncFilesWithElasticsearch (some entries) idx extract).finalStorage
        (syncFilesWithElasticsearch (some entries) idx extract).finalIndex
        extract).deletedIds = [] ∧
    (syncFilesWithElasticsearch
        (syncFilesWithElasticsearch (some entries) idx extract).finalStorage
        (syncFilesWithElasticsearch (some entries) idx extract).finalIndex
        extract).upserted = [] ∧
    (syncFilesWithElasticsearch
        (syncFilesWithElasticsearch (some entries) idx extract).finalStorage
        (syncFilesWithElasticsearch (some entries) idx extract).finalIndex
        extract).indexedCount = 0 := by
  have hst : (syncFilesWithElasticsearch (some entries) idx extract).finalStorage =
      some entries := rfl
  rw [hst]
  set files := visibleFiles entries with hfiles
  set r1f := (syncFilesWithElasticsearch (some entries) idx extract).finalIndex
    with hr1f
  have hfin : r1f = (indexLoop entries extract
      { cur := deleteOrphans idx (orphanedRecords idx files),
        upserted := [], indexedCount := 0, skippedCount := 0 }
      (newFilesOf files (esIds idx))).cur := rfl
  -- every document surviving run 1 has a backing storage entry
  have hAll : ∀ d ∈ r1f, files.contains d.filename = true := by
    intro d hd
    rw [hfin] at hd
    refine indexLoop_cur_pred entries extract (fun a => files.contains a)
      _ _ ?_ ?_ d hd
    · intro e he
      exact ((mem_deleteOrphans_iff idx files e).mp he).2
    · intro n hn
      exact (contains_iff_mem _ _).mpr (List.mem_filter.mp hn).1
  -- so the second run finds no orphans
  have hOrph : orphanedRecords r1f files = [] := by
    rw [orphanedRecords, List.filter_eq_nil_iff]
    intro d hd
    simp only [hAll d hd, Bool.not_true]
    exact Bool.false_ne_true
  -- and every new file of the second run fails extraction deterministically
  have hFail : ∀ n ∈ newFilesOf files (esIds r1f),
      ∃ m u, getMimeType n = some m ∧ extract n m = Except.error u := by
    intro n hn
    obtain ⟨hnf, hpred⟩ := List.mem_filter.mp hn
    have hsplit : ¬ (esIds r1f).contains n = true ∧
        isSupportedFileType n = true := by simpa using hpred
    have hsupp : (getMimeType n).isSome = true := hsplit.2
    obtain ⟨m, hm⟩ := Option.isSome_iff_exists.mp hsupp
    have hfind : (entries.find? (fun e => e.name == n)).isSome = true := by
      apply List.find?_isSome.mpr
      obtain ⟨e, he, hen⟩ := List.mem_map.mp hnf
      exact ⟨e, (List.mem_filter.mp he).1, beq_iff_eq.mpr hen⟩
    refine ⟨m, ?_⟩
    cases hx : extract n m with
    | ok c =>
      exfalso
      apply hsplit.1
      apply (contains_iff_mem _ _).mpr
      by_cases hidx : n ∈ esIds idx
      · obtain ⟨d, hd, hdn⟩ := List.mem_map.mp hidx
        have hdfin : d ∈ r1f := by
          rw [hfin]
          apply indexLoop_mem_preserved
          · refine (mem_deleteOrphans_iff idx files d).mpr ⟨hd, ?_⟩
            rw [hdn]
            exact (contains_iff_mem _ _).mpr hnf
          · intro k hk heqk
            have hksplit : ¬ (esIds idx).contains k = true ∧
                isSupportedFileType k = true := by
              simpa using (List.mem_filter.mp hk).2
            apply hksplit.1
            apply (contains_iff_mem _ _).mpr
            rw [heqk, hdn]
            exact hidx
        exact List.mem_map.mpr ⟨d, hdfin, hdn⟩
      · have hnotc : ((esIds idx).contains n) = false := by
          rw [← Bool.not_eq_true]
          intro hcon
          exact hidx ((contains_iff_mem _ _).mp hcon)
        have hnew1 : n ∈ newFilesOf files (esIds idx) :=
          List.mem_filter.mpr
            ⟨hnf, by simp [hnotc, hsupp, isSupportedFileType, hidx]⟩
        rw [hfin]
        exact indexLoop_ids_of_ok entries extract _ _ n m c hnew1 hm hfind hx
    | error u => exact ⟨u, hm, rfl⟩
  -- assemble: the second run's three observables
  have hdel2 : (syncFilesWithElasticsearch (some entries) r1f extract).deletedIds =
      (orphanedRecords r1f files).map (fun d => d.filename) := rfl
  have hloop2 : indexLoop entries extract
      { cur := deleteOrphans r1f (orphanedRecords r1f files),
        upserted := [], indexedCount := 0, skippedCount := 0 }
      (newFilesOf files (esIds r1f)) =
      { cur := deleteOrphans r1f (orphanedRecords r1f files),
        upserted := [], indexedCount := 0, skippedCount := 0 } :=
    indexLoop_noop entries extract _ _ hFail
  refine ⟨?_, ?_, ?_⟩
  · rw [hdel2, hOrph]
    rfl
  · show (indexLoop entries extract
      { cur := deleteOrphans r1f (orphanedRecords r1f files),
        upserted := [], indexedCount := 0, skippedCount := 0 }
      (newFilesOf files (esIds r1f))).upserted = []
    rw [hloop2]
  · show (indexLoop entries extract
      { cur := deleteOrphans r1f (orphanedRecords r1f files),
        upserted := [], indexedCount := 0, skippedCount := 0 }
      (newFilesOf files (esIds r1f))).indexedCount = 0
    rw [hloop2]

/-- Counterexample to C3 as stated: for the query "report", a wrapped span
whose inner text is `<em>report</em>` strips to the exact query term, so
the claim classifies it exact; the code compares the inner text without
stripping and labels it fuzzy. -/
theorem highlight_stripping_counterexample :
    specSpanExact "report" "<em>report</em>".data = true ∧
    codeSpanExact "report" "<em>report</em>".data = false ∧
    processHighlights "report"
        "<span class=\"highlight\"><em>report</em></span>" =
      "<span class=\"highlight-fuzzy\"><em>report</em></span>" := by
  decide

/-- Claim C3 (amended): for every non-empty query and every fragment made
of plain text and wrapped spans whose inner text holds no nested markup
(and no line terminator), the classifier relabels each span
independently: a span is labeled exact iff its inner text, lowercased,
equals some whitespace-split query term or the full trimmed lowercased
query (`codeSpanExact`), and fuzzy otherwise; inner-text casing and the
surrounding plain text are preserved.  Nested markup is not stripped
before the comparison — a span containing markup is compared with the
markup included (see the counterexample). -/
theorem processHighlights_classifies_spans (searchTerm : String)
    (segs : List Seg) (hq : ¬ jsTrim searchTerm = "")
    (hok : segs.all segOk = true) :
    processHighlights searchTerm (String.mk (renderFrag segs)) =
      String.mk ((segs.map (relabelSeg searchTerm)).flatten) := by
  have hok2 : ∀ s ∈ segs, segOk s = true := List.all_eq_true.mp hok
  unfold processHighlights
  rw [decide_eq_false hq, Bool.false_or]
  by_cases hemp : String.mk (renderFrag segs) = ""
  · have hnil : renderFrag segs = [] := by
      simpa using congrArg String.data hemp
    rw [hemp]
    show ("" : String) = String.mk ((segs.map (relabelSeg searchTerm)).flatten)
    rw [relabelSeg_flatten_nil searchTerm segs hnil]
  · rw [decide_eq_false hemp]
    show String.mk (relabelSpans
        (labelReplacement (splitWs ((jsTrim searchTerm).data.map lowerChar))
          ((jsTrim searchTerm).data.map lowerChar)) (renderFrag segs)) =
      String.mk ((segs.map (relabelSeg searchTerm)).flatten)
    rw [relabelSpans_renderFrag _ segs hok2]
    have hmap := List.map_congr_left
      (l := segs)
      (f := fun s =>
        match s with
        | Seg.plainText t => t
        | Seg.spanText c =>
            labelReplacement
              (splitWs ((jsTrim searchTerm).data.map lowerChar))
              ((jsTrim searchTerm).data.map lowerChar) c)
      (g := relabelSeg searchTerm)
      (fun s _ => by cases s <;> rfl)
    rw [hmap]

/-- A concrete fragment: plain text around one exactly-matching span
(upper-case inner text, preserved) and one fuzzy span. -/
def demoSegs : List Seg :=
  [Seg.plainText "Annual ".data, Seg.spanText "Report".data,
   Seg.plainText " and ".data, Seg.spanText "repot".data]

/-- Witness for C3 at the query "report" and a concrete fragment. -/
theorem processHighlights_classifies_spans_witness :
    (¬ jsTrim "report" = "") ∧ demoSegs.all segOk = true ∧
    processHighlights "report" (String.mk (renderFrag demoSegs)) =
      String.mk ((demoSegs.map (relabelSeg "report")).flatten) :=
  ⟨by decide, by decide,
   processHighlights_classifies_spans "report" demoSegs (by decide) (by decide)⟩

end FileUploadES
